import Mathlib

/-!
Device controller firmware (`firmware/main.c`).

A shallow embedding of the two task bodies of `main.c` (the communication
task and the control task), of `ApplyDeviceCommand` and of
`SendStateOverUart`, over an explicit state: the global `deviceState`, the
level of the device pin, the command queue, the two task-local buffers and
the trace of HAL calls made so far.

Bytes and machine integers are natural numbers; the narrowing casts of the
source (`(uint8_t)(rxByte - 48)`, `(uint16_t)length`) are written with an
explicit remainder. The calls `osDelay(1)` that end both loop bodies have no
effect on this state and are left out.
-/

namespace Firmware

/-! ## Constants and external types -/

/-- Capacity of the command queue: `#define COMMAND_QUEUE_LENGTH 16U`. -/
def COMMAND_QUEUE_LENGTH : Nat := 16

/-- Size of the transmit buffer of `SendStateOverUart`: `uint8_t txData[16]`. -/
def TXDATA_SIZE : Nat := 16

/-- Modelled from the spec: the pin level `GPIO_PIN_RESET` of the HAL header, which
is not part of the sources (the actuator output low, device state 0). -/
def GPIO_PIN_RESET : Nat := 0

/-- Modelled from the spec: the pin level `GPIO_PIN_SET` of the HAL header, which
is not part of the sources (the actuator output high, device state 1). -/
def GPIO_PIN_SET : Nat := 1

/-- Modelled from the spec: the result type of the byte transport's receive
operation (`HAL_StatusTypeDef` of the HAL header, which is not part of the
sources): success, or one of the three failure statuses. -/
inductive HAL_StatusTypeDef where
  | HAL_OK
  | HAL_ERROR
  | HAL_BUSY
  | HAL_TIMEOUT
deriving DecidableEq, Repr

/-- Modelled from the spec: the result of a queue operation (`osStatus_t` of the
RTOS header, which is not part of the sources): `osOK`, or `osErrorResource`
when a zero-wait insertion finds the queue full. -/
inductive osStatus_t where
  | osOK
  | osErrorResource
deriving DecidableEq, Repr

/-- The calls `main.c` makes into the HAL once the tasks run, as trace entries.
`UART_Transmit data` carries the bytes handed to the transport, that is the
first `Size` bytes of the buffer. -/
inductive HalCall where
  | GPIO_WritePin (level : Nat)
  | UART_Transmit (data : List Nat)
  | UART_DeInit
  | MX_USART2_UART_Init
deriving DecidableEq, Repr

/-- The state the two tasks share or keep across loop iterations. -/
structure State where
  /-- The global `static volatile uint8_t deviceState`. -/
  deviceState : Nat
  /-- The output level of `DEVICE_Pin`. -/
  pin : Nat
  /-- The contents of `commandQueue`, oldest item first. -/
  queue : List Nat
  /-- The local `rxByte` of `StartCommunicationTask`. -/
  rxByte : Nat
  /-- The local `command` of `StartControlTask`. -/
  command : Nat
  /-- The HAL calls made so far, oldest first. -/
  calls : List HalCall
deriving DecidableEq, Repr

/-- The state when the scheduler starts: `deviceState = 0`, the output low, the
queue just created, both task locals initialised to 0, nothing transmitted. -/
def initialState : State :=
  { deviceState := 0, pin := GPIO_PIN_RESET, queue := [], rxByte := 0, command := 0, calls := [] }

/-! ## The queue -/

/-- Modelled from the spec: `osMessageQueuePut(commandQueue, &command, 0, 0)`, a
zero-wait insertion into a bounded FIFO of capacity `COMMAND_QUEUE_LENGTH`:
the item goes to the back, or the call fails and the queue is left as it was
when the queue is full. -/
def osMessageQueuePut (queue : List Nat) (item : Nat) : osStatus_t × List Nat :=
  if queue.length < COMMAND_QUEUE_LENGTH then (.osOK, queue ++ [item])
  else (.osErrorResource, queue)

/-- Modelled from the spec: `osMessageQueueGet(commandQueue, &command, NULL, osWaitForever)`,
a blocking removal of the oldest item: `none` while the queue is empty (the
caller stays blocked), else the item and the remaining queue. -/
def osMessageQueueGet (queue : List Nat) : Option (Nat × List Nat) :=
  match queue with
  | [] => none
  | item :: rest => some (item, rest)

/-! ## The state reporter -/

/-- The bytes of the `%u` conversion: the decimal digits of `n`. -/
def formatUnsigned (n : Nat) : List Nat :=
  (Nat.toDigits 10 n).map Char.toNat

/-- The bytes the format `"STATE:%u\n"` renders for the argument `n`. -/
def formatState (n : Nat) : List Nat :=
  [83, 84, 65, 84, 69, 58] ++ formatUnsigned n ++ [10]

/-- The call `snprintf(buf, size, ...)` of the C library on an already rendered
text: the buffer receives at most `size - 1` bytes of it and a terminating
0, and the result is the length of the whole text. -/
def snprintf (size : Nat) (text : List Nat) : List Nat × Int :=
  (if size = 0 then [] else text.take (size - 1) ++ [0], (text.length : Int))

/-- The function `SendStateOverUart` of `main.c`. -/
def SendStateOverUart (s : State) : State :=
  let r := snprintf TXDATA_SIZE (formatState s.deviceState)
  let txData := r.1
  let length := r.2
  if 0 < length ∧ length < (TXDATA_SIZE : Int) then
    { s with calls := s.calls ++ [HalCall.UART_Transmit (txData.take (length.toNat % 65536))] }
  else
    s

/-! ## The controller -/

/-- The function `ApplyDeviceCommand` of `main.c`. -/
def ApplyDeviceCommand (command : Nat) (s : State) : State :=
  match command with
  | 0 =>
    { s with pin := GPIO_PIN_RESET, deviceState := 0,
             calls := s.calls ++ [HalCall.GPIO_WritePin GPIO_PIN_RESET] }
  | 1 =>
    { s with pin := GPIO_PIN_SET, deviceState := 1,
             calls := s.calls ++ [HalCall.GPIO_WritePin GPIO_PIN_SET] }
  | _ => s

/-- One iteration of the loop of `StartControlTask`: when the queue holds an item
it is removed into `command`, applied and reported; on an empty queue the
task stays blocked in `osMessageQueueGet` and nothing changes. -/
def StartControlTask (s : State) : State :=
  match osMessageQueueGet s.queue with
  | some (item, rest) =>
    SendStateOverUart (ApplyDeviceCommand item { s with queue := rest, command := item })
  | none => s

/-! ## The receiver -/

/-- One iteration of the loop of `StartCommunicationTask`, for the result
`status` of `HAL_UART_Receive` and, when that is `HAL_OK`, the byte `byte` it
stored in `rxByte`. -/
def StartCommunicationTask (status : HAL_StatusTypeDef) (byte : Nat) (s : State) : State :=
  if status = .HAL_OK then
    let s := { s with rxByte := byte }
    if s.rxByte = 48 ∨ s.rxByte = 49 then
      let command := (((s.rxByte : Int) - 48) % 256).toNat
      let r := osMessageQueuePut s.queue command
      if r.1 ≠ .osOK then SendStateOverUart { s with queue := r.2 }
      else { s with queue := r.2 }
    else if s.rxByte = 83 ∨ s.rxByte = 115 then
      SendStateOverUart s
    else
      s
  else if status = .HAL_ERROR then
    { s with calls := s.calls ++ [HalCall.UART_DeInit, HalCall.MX_USART2_UART_Init] }
  else
    s

/-! ## Runs of the two tasks -/

/-- One scheduling event: the communication task completes an iteration on a
receive result, or the control task is given the processor. -/
inductive Event where
  | receive (status : HAL_StatusTypeDef) (byte : Nat)
  | control
deriving DecidableEq, Repr

/-- The effect of one event on the state. -/
def step (e : Event) (s : State) : State :=
  match e with
  | .receive status byte => StartCommunicationTask status byte s
  | .control => StartControlTask s

/-- The effect of a schedule, first event first. -/
def run (es : List Event) (s : State) : State :=
  match es with
  | [] => s
  | e :: rest => run rest (step e s)

/-- The control task runs until the queue is empty: one iteration per queued item. -/
def drain (s : State) : State :=
  StartControlTask^[s.queue.length] s

/-- The bytes the schedule delivers successfully, in order. -/
def receivedBytes (es : List Event) : List Nat :=
  match es with
  | [] => []
  | .receive .HAL_OK byte :: rest => byte :: receivedBytes rest
  | _ :: rest => receivedBytes rest

/-- Every receive of the schedule succeeds with one of the command bytes `'0'`, `'1'`. -/
def commandsOnly (es : List Event) : Prop :=
  ∀ e ∈ es, e = .control ∨ e = .receive .HAL_OK 48 ∨ e = .receive .HAL_OK 49

instance commandsOnly.decidable (es : List Event) : Decidable (commandsOnly es) := by
  unfold commandsOnly
  infer_instance

/-- No insertion fails along the schedule: whenever the communication task
receives a command byte, its `osMessageQueuePut` returns `osOK`. -/
def noEnqueueFails (es : List Event) (s : State) : Prop :=
  match es with
  | [] => True
  | .receive status byte :: rest =>
    (status = .HAL_OK → byte = 48 ∨ byte = 49 →
        (osMessageQueuePut s.queue (((byte : Int) - 48) % 256).toNat).1 = .osOK) ∧
      noEnqueueFails rest (step (.receive status byte) s)
  | .control :: rest => noEnqueueFails rest (step .control s)

instance noEnqueueFails.decidable :
    (es : List Event) → (s : State) → Decidable (noEnqueueFails es s)
  | [], _ => isTrue trivial
  | .receive status byte :: rest, s =>
    have := noEnqueueFails.decidable rest (step (.receive status byte) s)
    inferInstanceAs (Decidable
      ((status = .HAL_OK → byte = 48 ∨ byte = 49 →
          (osMessageQueuePut s.queue (((byte : Int) - 48) % 256).toNat).1 = .osOK) ∧
        noEnqueueFails rest (step (.receive status byte) s)))
  | .control :: rest, s => noEnqueueFails.decidable rest (step .control s)

/-- The HAL calls of the control task applying the command `c` (0 or 1): the pin
write, then the report of the new state. -/
def appliedCalls (c : Nat) : List HalCall :=
  [HalCall.GPIO_WritePin c, HalCall.UART_Transmit (formatState c)]

/-- The HAL calls of applying a list of commands one after the other. -/
def appliedTrace (cs : List Nat) : List HalCall :=
  match cs with
  | [] => []
  | c :: rest => appliedCalls c ++ appliedTrace rest

/-- The communication task receives the bytes of `bs` one after the other, each
successfully, while the control task does not run. -/
def receiveAll (bs : List Nat) (s : State) : State :=
  match bs with
  | [] => s
  | b :: rest => receiveAll rest (StartCommunicationTask .HAL_OK b s)

/-- The communication task receives the bytes of `bs` one after the other, and
after each byte the control task empties the queue. -/
def receiveAndDrain (bs : List Nat) (s : State) : State :=
  match bs with
  | [] => s
  | b :: rest => receiveAndDrain rest (drain (StartCommunicationTask .HAL_OK b s))

/-- The messages transmitted, in order. -/
def transmitted (calls : List HalCall) : List (List Nat) :=
  calls.filterMap fun c => match c with
    | .UART_Transmit data => some data
    | _ => none

/-- The invariant tying the device state to the actuator: `deviceState` is 0 or 1
and the output level of the pin equals it. -/
def StateMatchesPin (s : State) : Prop :=
  (s.deviceState = 0 ∨ s.deviceState = 1) ∧ s.pin = s.deviceState

instance StateMatchesPin.decidable (s : State) : Decidable (StateMatchesPin s) := by
  unfold StateMatchesPin
  infer_instance


/-! ## The state reporter: lemmas -/

theorem formatUnsigned_length_le (d : Nat) (h : d < 256) : (formatUnsigned d).length ≤ 3 := by
  unfold formatUnsigned
  interval_cases d <;> decide

theorem formatUnsigned_length_pos (d : Nat) (h : d < 256) : 0 < (formatUnsigned d).length := by
  unfold formatUnsigned
  interval_cases d <;> decide

theorem formatState_length (n : Nat) :
    (formatState n).length = 7 + (formatUnsigned n).length := by
  simp [formatState]
  omega

/-- For an 8-bit device state the report is transmitted, whole. -/
theorem SendStateOverUart_eq (s : State) (h : s.deviceState < 256) :
    SendStateOverUart s =
      { s with calls := s.calls ++ [HalCall.UART_Transmit (formatState s.deviceState)] } := by
  have h1 := formatUnsigned_length_le s.deviceState h
  have h2 := formatState_length s.deviceState
  have h3 : (formatState s.deviceState).length ≤ 10 := by omega
  have h4 : 0 < (formatState s.deviceState).length := by omega
  unfold SendStateOverUart snprintf TXDATA_SIZE
  have hlt : (0 : Int) < ((formatState s.deviceState).length : Int) ∧
      ((formatState s.deviceState).length : Int) < ((16 : Nat) : Int) := by
    constructor <;> omega
  have hmod : (formatState s.deviceState).length % 65536 = (formatState s.deviceState).length := by
    omega
  have htake : List.take (16 - 1) (formatState s.deviceState) = formatState s.deviceState :=
    List.take_of_length_le (by omega)
  simp only [hlt, and_self, if_true, Int.toNat_ofNat, hmod, htake]
  simp

/-- The report changes nothing but the trace of HAL calls. -/
theorem SendStateOverUart_frame (s : State) :
    (SendStateOverUart s).deviceState = s.deviceState ∧ (SendStateOverUart s).pin = s.pin ∧
    (SendStateOverUart s).queue = s.queue ∧ (SendStateOverUart s).rxByte = s.rxByte ∧
    (SendStateOverUart s).command = s.command := by
  simp only [SendStateOverUart]
  by_cases h : 0 < (snprintf TXDATA_SIZE (formatState s.deviceState)).2 ∧
      (snprintf TXDATA_SIZE (formatState s.deviceState)).2 < (TXDATA_SIZE : Int)
  · simp [h]
  · simp [h]

/-! ## The task bodies: lemmas -/

theorem StartControlTask_nil (s : State) (hq : s.queue = []) : StartControlTask s = s := by
  simp [StartControlTask, osMessageQueueGet, hq]

theorem StartControlTask_cons (s : State) (c : Nat) (rest : List Nat) (hq : s.queue = c :: rest)
    (hc : c = 0 ∨ c = 1) :
    StartControlTask s =
      { s with queue := rest, command := c, pin := c, deviceState := c,
               calls := s.calls ++ appliedCalls c } := by
  rcases hc with rfl | rfl
  · simp only [StartControlTask, osMessageQueueGet, hq]
    rw [SendStateOverUart_eq _ (by simp [ApplyDeviceCommand])]
    simp [ApplyDeviceCommand, appliedCalls, GPIO_PIN_RESET]
  · simp only [StartControlTask, osMessageQueueGet, hq]
    rw [SendStateOverUart_eq _ (by simp [ApplyDeviceCommand])]
    simp [ApplyDeviceCommand, appliedCalls, GPIO_PIN_SET]

theorem StartCommunicationTask_command_ok (s : State) (b : Nat) (hb : b = 48 ∨ b = 49)
    (hroom : s.queue.length < COMMAND_QUEUE_LENGTH) :
    StartCommunicationTask .HAL_OK b s = { s with rxByte := b, queue := s.queue ++ [b - 48] } := by
  rcases hb with rfl | rfl <;> simp [StartCommunicationTask, osMessageQueuePut, hroom]

/-! ## Lists: the last element with a default -/

theorem getLastD_cons (c : Nat) (l : List Nat) (d : Nat) :
    (c :: l).getLast?.getD d = l.getLast?.getD c := by
  cases l with
  | nil => rfl
  | cons x xs =>
    rw [List.getLast?_cons_cons, List.getLast?_eq_getLast (x :: xs) (by simp)]
    rfl

/-! ## The receive buffer does not influence the rest of the state -/

theorem SendStateOverUart_rxByte (s : State) (r : Nat) :
    SendStateOverUart { s with rxByte := r } = { SendStateOverUart s with rxByte := r } := by
  simp only [SendStateOverUart]
  by_cases h : 0 < (snprintf TXDATA_SIZE (formatState s.deviceState)).2 ∧
      (snprintf TXDATA_SIZE (formatState s.deviceState)).2 < (TXDATA_SIZE : Int)
  · simp [h]
  · simp [h]

theorem ApplyDeviceCommand_rxByte (c : Nat) (s : State) (r : Nat) :
    ApplyDeviceCommand c { s with rxByte := r } = { ApplyDeviceCommand c s with rxByte := r } := by
  match c with
  | 0 => rfl
  | 1 => rfl
  | _ + 2 => rfl

theorem StartControlTask_rxByte (s : State) (r : Nat) :
    StartControlTask { s with rxByte := r } = { StartControlTask s with rxByte := r } := by
  cases hq : s.queue with
  | nil => simp [StartControlTask, osMessageQueueGet, hq]
  | cons c rest =>
    simp only [StartControlTask, osMessageQueueGet, hq]
    rw [← SendStateOverUart_rxByte, ← ApplyDeviceCommand_rxByte]

theorem iterate_StartControlTask_rxByte (n : Nat) (s : State) (r : Nat) :
    StartControlTask^[n] { s with rxByte := r } = { StartControlTask^[n] s with rxByte := r } := by
  induction n generalizing s with
  | zero => rfl
  | succ n ih =>
    rw [Function.iterate_succ_apply, Function.iterate_succ_apply, StartControlTask_rxByte, ih]

theorem drain_rxByte (s : State) (r : Nat) :
    drain { s with rxByte := r } = { drain s with rxByte := r } := by
  unfold drain
  exact iterate_StartControlTask_rxByte _ s r

theorem step_rxByte (e : Event) (s : State) (r : Nat) :
    ∃ r2, step e { s with rxByte := r } = { step e s with rxByte := r2 } := by
  cases e with
  | control => exact ⟨r, StartControlTask_rxByte s r⟩
  | receive status byte =>
    cases status
    · exact ⟨(StartCommunicationTask .HAL_OK byte s).rxByte, rfl⟩
    · exact ⟨r, rfl⟩
    · exact ⟨r, rfl⟩
    · exact ⟨r, rfl⟩

theorem run_rxByte (es : List Event) (s : State) (r : Nat) :
    ∃ r2, run es { s with rxByte := r } = { run es s with rxByte := r2 } := by
  induction es generalizing s r with
  | nil => exact ⟨r, rfl⟩
  | cons e rest ih =>
    obtain ⟨r1, h1⟩ := step_rxByte e s r
    obtain ⟨r2, h2⟩ := ih (step e s) r1
    exact ⟨r2, by simp only [run]; rw [h1, h2]⟩

theorem drain_of_queue_nil (s : State) (hq : s.queue = []) : drain s = s := by
  simp [drain, hq]

theorem StartCommunicationTask_other_byte (s : State) (b : Nat)
    (hb : b ≠ 48 ∧ b ≠ 49 ∧ b ≠ 83 ∧ b ≠ 115) :
    StartCommunicationTask .HAL_OK b s = { s with rxByte := b } := by
  obtain ⟨h1, h2, h3, h4⟩ := hb
  simp [StartCommunicationTask, h1, h2, h3, h4]

theorem receiveAll_other_bytes (bs : List Nat) (s : State)
    (hbs : ∀ b ∈ bs, b ≠ 48 ∧ b ≠ 49 ∧ b ≠ 83 ∧ b ≠ 115) :
    receiveAll bs s = { s with rxByte := bs.getLast?.getD s.rxByte } := by
  induction bs generalizing s with
  | nil => rfl
  | cons b rest ih =>
    have hrest : ∀ x ∈ rest, x ≠ 48 ∧ x ≠ 49 ∧ x ≠ 83 ∧ x ≠ 115 :=
      fun x hx => hbs x (List.mem_cons_of_mem _ hx)
    simp only [receiveAll]
    rw [StartCommunicationTask_other_byte s b (hbs b (List.mem_cons_self _ _)), ih _ hrest,
      getLastD_cons]

/-! ## The state reporter: the report and its length -/

/-- C7: for every 8-bit `deviceState` value `d`, `SendStateOverUart` makes exactly one
transmit call and changes nothing else; the bytes transmitted are `STATE:`, the
decimal digits of `d` and one newline, all of them (the length returned by
`snprintf` passes the check `0 < length < 16`, so the skip branch is not taken);
the rendering is at most 10 bytes long, and 8 bytes for `d` in {0, 1}, where it
is `STATE:0\n` and `STATE:1\n`. -/
theorem SendStateOverUart_transmits_whole_report (s : State) (hd : s.deviceState < 256) :
    SendStateOverUart s =
        { s with calls := s.calls ++
            [HalCall.UART_Transmit
              ([83, 84, 65, 84, 69, 58] ++ formatUnsigned s.deviceState ++ [10])] } ∧
      transmitted (SendStateOverUart s).calls =
        transmitted s.calls ++ [formatState s.deviceState] ∧
      (0 < (snprintf TXDATA_SIZE (formatState s.deviceState)).2 ∧
        (snprintf TXDATA_SIZE (formatState s.deviceState)).2 < (TXDATA_SIZE : Int)) ∧
      (snprintf TXDATA_SIZE (formatState s.deviceState)).2 =
        ((formatState s.deviceState).length : Int) ∧
      (formatState s.deviceState).length ≤ 10 ∧
      (s.deviceState ≤ 1 → (formatState s.deviceState).length = 8) ∧
      formatState 0 = [83, 84, 65, 84, 69, 58, 48, 10] ∧
      formatState 1 = [83, 84, 65, 84, 69, 58, 49, 10] := by
  have h1 := formatUnsigned_length_le s.deviceState hd
  have h2 := formatUnsigned_length_pos s.deviceState hd
  have h3 := formatState_length s.deviceState
  refine ⟨SendStateOverUart_eq s hd, ?_, ?_, rfl, by omega, ?_, by decide, by decide⟩
  · rw [SendStateOverUart_eq s hd]
    simp [transmitted, List.filterMap_append]
  · simp only [snprintf, TXDATA_SIZE]
    constructor <;> omega
  · intro hle
    have h01 : s.deviceState = 0 ∨ s.deviceState = 1 := by omega
    rcases h01 with h0 | h0 <;> rw [h0] <;> decide

theorem SendStateOverUart_transmits_whole_report_witness :
    SendStateOverUart { initialState with deviceState := 255 } =
      { initialState with
          deviceState := 255,
          calls := [HalCall.UART_Transmit [83, 84, 65, 84, 69, 58, 50, 53, 53, 10]] } :=
  (SendStateOverUart_transmits_whole_report { initialState with deviceState := 255 }
    (by decide)).1

/-! ## The controller on a value that is no command -/

/-- C2 (as stated, refuted): from the initial state with the value 2 in the queue, one
iteration of the control task transmits the report `STATE:0\n`; the output log
does not stay empty. -/
theorem StartControlTask_unknown_command_still_reports :
    transmitted (StartControlTask { initialState with queue := [2] }).calls =
        [[83, 84, 65, 84, 69, 58, 48, 10]] ∧
      transmitted (StartControlTask { initialState with queue := [2] }).calls ≠
        transmitted ({ initialState with queue := [2] } : State).calls := by
  decide

/-- C2 (amended): for every value `c` outside {0, 1} and every state with an 8-bit
`deviceState`, one iteration of the control task that dequeues `c` writes
nothing to the actuator and leaves `deviceState` and the pin level unchanged,
and transmits exactly one report, of the unchanged `deviceState`. -/
theorem StartControlTask_unknown_command (s : State) (c : Nat) (rest : List Nat)
    (hq : s.queue = c :: rest) (hc : 2 ≤ c) (hd : s.deviceState < 256) :
    StartControlTask s =
      { s with queue := rest, command := c,
               calls := s.calls ++ [HalCall.UART_Transmit (formatState s.deviceState)] } := by
  obtain ⟨k, rfl⟩ : ∃ k, c = k + 2 := ⟨c - 2, by omega⟩
  simp only [StartControlTask, osMessageQueueGet, hq, ApplyDeviceCommand]
  exact SendStateOverUart_eq _ hd

theorem StartControlTask_unknown_command_witness :
    StartControlTask { initialState with queue := [7, 1] } =
      { initialState with
          queue := [1], command := 7,
          calls := [HalCall.UART_Transmit (formatState 0)] } :=
  StartControlTask_unknown_command { initialState with queue := [7, 1] } 7 [1] rfl
    (by decide) (by decide)

/-! ## The receiver on a failed receive -/

/-- C3 (as stated, refuted): on the receive status `HAL_BUSY` the iteration of the
communication task leaves the state as it was; the transport is neither
deinitialized nor reinitialized. -/
theorem StartCommunicationTask_busy_no_reinit :
    HAL_StatusTypeDef.HAL_BUSY ≠ HAL_StatusTypeDef.HAL_OK ∧
      StartCommunicationTask .HAL_BUSY 48 initialState = initialState ∧
      (StartCommunicationTask .HAL_BUSY 48 initialState).calls ≠
        initialState.calls ++ [HalCall.UART_DeInit, HalCall.MX_USART2_UART_Init] := by
  decide

/-- C3 (amended): for every receive status other than `HAL_OK` and every state,
nothing is enqueued, nothing is transmitted, `deviceState`, the pin and the
receive buffer are unchanged (the byte of an earlier iteration is not processed
again); on `HAL_ERROR` the iteration deinitializes and then reinitializes the
transport and does nothing else, and on `HAL_BUSY` and `HAL_TIMEOUT` it does
nothing at all. -/
theorem StartCommunicationTask_receive_failure (status : HAL_StatusTypeDef) (byte : Nat)
    (s : State) (hst : status ≠ .HAL_OK) :
    (status = .HAL_ERROR →
        StartCommunicationTask status byte s =
          { s with calls := s.calls ++ [HalCall.UART_DeInit, HalCall.MX_USART2_UART_Init] }) ∧
      (status ≠ .HAL_ERROR → StartCommunicationTask status byte s = s) ∧
      (StartCommunicationTask status byte s).queue = s.queue ∧
      (StartCommunicationTask status byte s).deviceState = s.deviceState ∧
      (StartCommunicationTask status byte s).pin = s.pin ∧
      (StartCommunicationTask status byte s).rxByte = s.rxByte ∧
      transmitted (StartCommunicationTask status byte s).calls = transmitted s.calls := by
  cases status
  · exact absurd rfl hst
  all_goals simp [StartCommunicationTask, transmitted, List.filterMap_append]

theorem StartCommunicationTask_receive_failure_witness :
    StartCommunicationTask .HAL_ERROR 49 { initialState with rxByte := 49 } =
      { initialState with
          rxByte := 49, calls := [HalCall.UART_DeInit, HalCall.MX_USART2_UART_Init] } :=
  (StartCommunicationTask_receive_failure .HAL_ERROR 49 { initialState with rxByte := 49 }
    (by decide)).1 rfl

/-! ## The receiver on a query -/

/-- C6: for every state with an 8-bit `deviceState` `d` (whatever the queue holds) and
every byte `b` in {`S`, `s`} received successfully, the iteration of the
communication task transmits exactly one report, of `d`, and changes nothing
else but its receive buffer: `deviceState`, the pin and the queue are as
before; from the initial state the report is `STATE:0\n`. -/
theorem StartCommunicationTask_query (s : State) (b : Nat) (hb : b = 83 ∨ b = 115)
    (hd : s.deviceState < 256) :
    StartCommunicationTask .HAL_OK b s =
        { s with rxByte := b,
                 calls := s.calls ++ [HalCall.UART_Transmit (formatState s.deviceState)] } ∧
      transmitted (StartCommunicationTask .HAL_OK b s).calls =
        transmitted s.calls ++ [formatState s.deviceState] ∧
      transmitted (StartCommunicationTask .HAL_OK b initialState).calls =
        [[83, 84, 65, 84, 69, 58, 48, 10]] := by
  have hstep : ∀ t : State, t.deviceState < 256 →
      StartCommunicationTask .HAL_OK b t =
        { t with rxByte := b,
                 calls := t.calls ++ [HalCall.UART_Transmit (formatState t.deviceState)] } := by
    intro t ht
    rcases hb with rfl | rfl
    · simp only [StartCommunicationTask]
      simp only [if_true, Nat.reduceEqDiff, or_self, if_false, or_true, true_or]
      exact SendStateOverUart_eq _ ht
    · simp only [StartCommunicationTask]
      simp only [if_true, Nat.reduceEqDiff, or_self, if_false, or_true, true_or]
      exact SendStateOverUart_eq _ ht
  refine ⟨hstep s hd, ?_, ?_⟩
  · rw [hstep s hd]
    simp [transmitted, List.filterMap_append]
  · rw [hstep initialState (by decide)]
    simp [transmitted, initialState]
    decide

theorem StartCommunicationTask_query_witness :
    StartCommunicationTask .HAL_OK 115
        { initialState with deviceState := 1, pin := 1, queue := List.replicate 16 0 } =
      { initialState with
          deviceState := 1, pin := 1, queue := List.replicate 16 0, rxByte := 115,
          calls := [HalCall.UART_Transmit (formatState 1)] } :=
  (StartCommunicationTask_query
    { initialState with deviceState := 1, pin := 1, queue := List.replicate 16 0 } 115
    (Or.inr rfl) (by decide)).1

/-! ## The receiver on a command byte when the queue is full -/

/-- C4: for every state with an 8-bit `deviceState` whose queue holds 16 items and
every command byte `b` in {`0`, `1`}, the iteration of the communication task
leaves `deviceState`, the pin and the queue unchanged and transmits exactly one
report, of the `deviceState` held before the drop; the command is applied at no
later time: every continuation of the run is, the receive buffer apart, the
continuation of the state in which only that report was sent. -/
theorem StartCommunicationTask_queue_full (s : State) (b : Nat)
    (hfull : s.queue.length = COMMAND_QUEUE_LENGTH) (hb : b = 48 ∨ b = 49)
    (hd : s.deviceState < 256) :
    StartCommunicationTask .HAL_OK b s =
        { s with rxByte := b,
                 calls := s.calls ++ [HalCall.UART_Transmit (formatState s.deviceState)] } ∧
      transmitted (StartCommunicationTask .HAL_OK b s).calls =
        transmitted s.calls ++ [formatState s.deviceState] ∧
      ∀ es : List Event, ∃ r : Nat,
        run es (StartCommunicationTask .HAL_OK b s) =
          { run es (SendStateOverUart s) with rxByte := r } := by
  have hstep : StartCommunicationTask .HAL_OK b s =
      { s with rxByte := b,
               calls := s.calls ++ [HalCall.UART_Transmit (formatState s.deviceState)] } := by
    rcases hb with rfl | rfl
    · simp only [StartCommunicationTask, osMessageQueuePut, hfull]
      simp only [if_true, true_or, lt_irrefl, if_false, ne_eq, not_false_eq_true, reduceCtorEq]
      exact SendStateOverUart_eq _ hd
    · simp only [StartCommunicationTask, osMessageQueuePut, hfull]
      simp only [if_true, or_true, lt_irrefl, if_false, ne_eq, not_false_eq_true, reduceCtorEq]
      exact SendStateOverUart_eq _ hd
  refine ⟨hstep, ?_, ?_⟩
  · rw [hstep]
    simp [transmitted, List.filterMap_append]
  · intro es
    have h2 : StartCommunicationTask .HAL_OK b s = { SendStateOverUart s with rxByte := b } := by
      rw [hstep, SendStateOverUart_eq s hd]
    rw [h2]
    exact run_rxByte es (SendStateOverUart s) b

theorem StartCommunicationTask_queue_full_witness :
    StartCommunicationTask .HAL_OK 49 { initialState with queue := List.replicate 16 1 } =
      { initialState with
          queue := List.replicate 16 1, rxByte := 49,
          calls := [HalCall.UART_Transmit (formatState 0)] } :=
  (StartCommunicationTask_queue_full { initialState with queue := List.replicate 16 1 } 49
    rfl (Or.inr rfl) (by decide)).1

/-! ## The receiver on any other byte -/

/-- C5: for every state and every list of bytes outside {`0`, `1`, `S`, `s`}, each
received successfully: one iteration of the communication task on such a byte
changes only the receive buffer (no report, nothing enqueued, `deviceState` and
the pin as before); so does the whole list; the control task emptying the
queue afterwards does what it does without those bytes; and from an empty queue
the whole run leaves everything but the receive buffer as it was. -/
theorem StartCommunicationTask_noise_ignored (s : State) (bs : List Nat)
    (hbs : ∀ b ∈ bs, b ≠ 48 ∧ b ≠ 49 ∧ b ≠ 83 ∧ b ≠ 115) :
    (∀ b ∈ bs, StartCommunicationTask .HAL_OK b s = { s with rxByte := b }) ∧
      receiveAll bs s = { s with rxByte := bs.getLast?.getD s.rxByte } ∧
      drain (receiveAll bs s) = { drain s with rxByte := bs.getLast?.getD s.rxByte } ∧
      (s.queue = [] →
        drain (receiveAll bs s) = { s with rxByte := bs.getLast?.getD s.rxByte }) := by
  have hall := receiveAll_other_bytes bs s hbs
  refine ⟨fun b hb => StartCommunicationTask_other_byte s b (hbs b hb), hall, ?_, ?_⟩
  · rw [hall, drain_rxByte]
  · intro hq
    rw [hall, drain_rxByte, drain_of_queue_nil s hq]

theorem StartCommunicationTask_noise_ignored_witness :
    drain (receiveAll [120, 10, 50] initialState) = { initialState with rxByte := 50 } :=
  (StartCommunicationTask_noise_ignored initialState [120, 10, 50] (by decide)).2.2.2 rfl

/-! ## The scenario `1S0S` -/

/-- C8: from the initial state, the bytes `1`, `S`, `0`, `S` received one at a time,
the control task emptying the queue after each, produce exactly four
transmitted messages: `STATE:1\n`, `STATE:1\n`, `STATE:0\n`, `STATE:0\n`, in
this order. -/
theorem scenario_1S0S :
    transmitted (receiveAndDrain [49, 83, 48, 83] initialState).calls =
      [[83, 84, 65, 84, 69, 58, 49, 10], [83, 84, 65, 84, 69, 58, 49, 10],
       [83, 84, 65, 84, 69, 58, 48, 10], [83, 84, 65, 84, 69, 58, 48, 10]] := by
  decide

/-! ## Repeating a command -/

/-- C9: for every state and every command `c` in {0, 1}, two iterations of the
control task on `c` in a row leave the same `deviceState` and pin level as
one (both equal `c`; `ApplyDeviceCommand c` applied twice agrees with once on
both), and each of the two iterations appends the pin write and exactly one
report, of `c`. -/
theorem StartControlTask_idempotent (s : State) (c : Nat) (rest : List Nat)
    (hq : s.queue = c :: c :: rest) (hc : c = 0 ∨ c = 1) :
    (StartControlTask s).deviceState = c ∧ (StartControlTask s).pin = c ∧
      (StartControlTask (StartControlTask s)).deviceState = (StartControlTask s).deviceState ∧
      (StartControlTask (StartControlTask s)).pin = (StartControlTask s).pin ∧
      (ApplyDeviceCommand c (ApplyDeviceCommand c s)).deviceState =
        (ApplyDeviceCommand c s).deviceState ∧
      (ApplyDeviceCommand c (ApplyDeviceCommand c s)).pin = (ApplyDeviceCommand c s).pin ∧
      (StartControlTask s).calls =
        s.calls ++ [HalCall.GPIO_WritePin c, HalCall.UART_Transmit (formatState c)] ∧
      (StartControlTask (StartControlTask s)).calls =
        (StartControlTask s).calls ++
          [HalCall.GPIO_WritePin c, HalCall.UART_Transmit (formatState c)] ∧
      transmitted (StartControlTask s).calls = transmitted s.calls ++ [formatState c] ∧
      transmitted (StartControlTask (StartControlTask s)).calls =
        transmitted (StartControlTask s).calls ++ [formatState c] := by
  have h1 := StartControlTask_cons s c (c :: rest) hq hc
  have h2 := StartControlTask_cons (StartControlTask s) c rest (by rw [h1]) hc
  have happ : (ApplyDeviceCommand c (ApplyDeviceCommand c s)).deviceState =
        (ApplyDeviceCommand c s).deviceState ∧
      (ApplyDeviceCommand c (ApplyDeviceCommand c s)).pin = (ApplyDeviceCommand c s).pin := by
    rcases hc with rfl | rfl <;> exact ⟨rfl, rfl⟩
  refine ⟨by rw [h1], by rw [h1], ?_, ?_, happ.1, happ.2, by rw [h1]; rfl, by rw [h2]; rfl, ?_, ?_⟩
  · rw [h2, h1]
  · rw [h2, h1]
  · rw [h1]
    simp [transmitted, appliedCalls, List.filterMap_append]
  · rw [h2]
    simp [transmitted, appliedCalls, List.filterMap_append]

theorem StartControlTask_idempotent_witness :
    (StartControlTask (StartControlTask { initialState with queue := [1, 1] })).deviceState =
      (StartControlTask { initialState with queue := [1, 1] }).deviceState :=
  (StartControlTask_idempotent { initialState with queue := [1, 1] } 1 [] rfl (Or.inr rfl)).2.2.1

/-! ## The device state and the actuator agree -/

theorem ApplyDeviceCommand_preserves (c : Nat) (s : State) (h : StateMatchesPin s) :
    StateMatchesPin (ApplyDeviceCommand c s) := by
  match c with
  | 0 => exact ⟨Or.inl rfl, rfl⟩
  | 1 => exact ⟨Or.inr rfl, rfl⟩
  | _ + 2 => exact h

theorem SendStateOverUart_preserves (s : State) (h : StateMatchesPin s) :
    StateMatchesPin (SendStateOverUart s) := by
  obtain ⟨hd, hp, -⟩ := SendStateOverUart_frame s
  unfold StateMatchesPin
  rw [hd, hp]
  exact h

theorem StartControlTask_preserves (s : State) (h : StateMatchesPin s) :
    StateMatchesPin (StartControlTask s) := by
  cases hq : s.queue with
  | nil => rw [StartControlTask_nil s hq]; exact h
  | cons c rest =>
    simp only [StartControlTask, osMessageQueueGet, hq]
    exact SendStateOverUart_preserves _ (ApplyDeviceCommand_preserves c _ h)

theorem StartCommunicationTask_preserves (status : HAL_StatusTypeDef) (byte : Nat) (s : State)
    (h : StateMatchesPin s) : StateMatchesPin (StartCommunicationTask status byte s) := by
  cases status
  · simp only [StartCommunicationTask, if_true]
    by_cases h1 : byte = 48 ∨ byte = 49
    · simp only [h1, if_true]
      split
      · exact SendStateOverUart_preserves _ h
      · exact h
    · simp only [h1, if_false]
      by_cases h2 : byte = 83 ∨ byte = 115
      · simp only [h2, if_true]
        exact SendStateOverUart_preserves _ h
      · simp only [h2, if_false]
        exact h
  all_goals exact h

theorem run_preserves (es : List Event) (s : State) (h : StateMatchesPin s) :
    StateMatchesPin (run es s) := by
  induction es generalizing s with
  | nil => exact h
  | cons e rest ih =>
    simp only [run]
    apply ih
    cases e with
    | receive status byte => exact StartCommunicationTask_preserves status byte s h
    | control => exact StartControlTask_preserves s h

/-- C10: the predicate `deviceState` is 0 or 1 and the pin level equals `deviceState`
is preserved by `ApplyDeviceCommand` for every command value, by
`SendStateOverUart`, by every iteration of the communication task for every
receive status and byte, and by every iteration of the control task; after
`ApplyDeviceCommand c` with `c` in {0, 1}, `deviceState` and the pin level
both equal `c`; and the predicate holds after every run from a state with
`deviceState` 0 and the output low. -/
theorem StateMatchesPin_invariant :
    (∀ (c : Nat) (s : State), StateMatchesPin s → StateMatchesPin (ApplyDeviceCommand c s)) ∧
      (∀ s : State, StateMatchesPin s → StateMatchesPin (SendStateOverUart s)) ∧
      (∀ (status : HAL_StatusTypeDef) (byte : Nat) (s : State),
        StateMatchesPin s → StateMatchesPin (StartCommunicationTask status byte s)) ∧
      (∀ s : State, StateMatchesPin s → StateMatchesPin (StartControlTask s)) ∧
      (∀ (c : Nat) (s : State), c = 0 ∨ c = 1 →
        (ApplyDeviceCommand c s).deviceState = c ∧ (ApplyDeviceCommand c s).pin = c) ∧
      (∀ (s : State) (es : List Event), s.deviceState = 0 → s.pin = GPIO_PIN_RESET →
        StateMatchesPin (run es s)) := by
  refine ⟨ApplyDeviceCommand_preserves, SendStateOverUart_preserves,
    StartCommunicationTask_preserves, StartControlTask_preserves, ?_, ?_⟩
  · intro c s hc
    rcases hc with rfl | rfl <;> exact ⟨rfl, rfl⟩
  · intro s es hd hp
    exact run_preserves es s ⟨Or.inl hd, by rw [hp, hd]; rfl⟩

theorem StateMatchesPin_invariant_witness :
    StateMatchesPin
      (run [.receive .HAL_OK 49, .receive .HAL_ERROR 0, .control, .receive .HAL_OK 83]
        { initialState with queue := [200] }) :=
  StateMatchesPin_invariant.2.2.2.2.2 { initialState with queue := [200] }
    [.receive .HAL_OK 49, .receive .HAL_ERROR 0, .control, .receive .HAL_OK 83] rfl rfl

/-! ## Commands are applied in the order received -/

theorem osMessageQueuePut_ok_room (queue : List Nat) (item : Nat)
    (h : (osMessageQueuePut queue item).1 = .osOK) : queue.length < COMMAND_QUEUE_LENGTH := by
  unfold osMessageQueuePut at h
  by_cases hlt : queue.length < COMMAND_QUEUE_LENGTH
  · exact hlt
  · simp [hlt] at h

/-- Along a schedule of command bytes and control iterations in which no insertion
fails, what was queued at the start followed by what was received is what has
been applied followed by what is still queued, and the trace, `deviceState`
and the pin record the applied commands in that order. -/
theorem run_fifo (es : List Event) :
    ∀ s : State, (∀ c ∈ s.queue, c = 0 ∨ c = 1) → commandsOnly es → noEnqueueFails es s →
      ∃ applied : List Nat,
        s.queue ++ (receivedBytes es).map (fun b => b - 48) = applied ++ (run es s).queue ∧
        (run es s).calls = s.calls ++ appliedTrace applied ∧
        (run es s).deviceState = applied.getLast?.getD s.deviceState ∧
        (run es s).pin = applied.getLast?.getD s.pin := by
  induction es with
  | nil =>
    intro s _ _ _
    exact ⟨[], by simp [run, receivedBytes], by simp [run, appliedTrace], rfl, rfl⟩
  | cons e rest ih =>
    intro s hqueue hcmd hok
    have hrest : commandsOnly rest := fun x hx => hcmd x (List.mem_cons_of_mem _ hx)
    rcases hcmd e (List.mem_cons_self _ _) with rfl | rfl | rfl
    · -- the control task runs
      cases hq : s.queue with
      | nil =>
        have hstep : step .control s = s := StartControlTask_nil s hq
        simp only [noEnqueueFails, hstep] at hok
        obtain ⟨applied, h1, h2, h3, h4⟩ := ih s hqueue hrest hok
        refine ⟨applied, ?_, ?_, ?_, ?_⟩
        · simpa [run, hstep, receivedBytes, hq] using h1
        · simpa [run, hstep] using h2
        · simpa [run, hstep] using h3
        · simpa [run, hstep] using h4
      | cons c q =>
        have hc : c = 0 ∨ c = 1 := hqueue c (by rw [hq]; exact List.mem_cons_self _ _)
        have hstep : step .control s = _ := StartControlTask_cons s c q hq hc
        simp only [noEnqueueFails, hstep] at hok
        have hqueue2 : ∀ x ∈ q, x = 0 ∨ x = 1 :=
          fun x hx => hqueue x (by rw [hq]; exact List.mem_cons_of_mem _ hx)
        obtain ⟨applied, h1, h2, h3, h4⟩ := ih _ hqueue2 hrest hok
        refine ⟨c :: applied, ?_, ?_, ?_, ?_⟩
        · simp only [run, hstep, receivedBytes]
          simp only at h1
          rw [List.cons_append, List.cons_append, h1]
        · simp only [run, hstep]
          rw [h2]
          simp [appliedTrace]
        · simp only [run, hstep]
          rw [h3, getLastD_cons]
        · simp only [run, hstep]
          rw [h4, getLastD_cons]
    · -- the byte 48 is received
      obtain ⟨hput, hok2⟩ := hok
      have hroom := osMessageQueuePut_ok_room _ _ (hput rfl (Or.inl rfl))
      have hstep : step (.receive .HAL_OK 48) s = _ :=
        StartCommunicationTask_command_ok s 48 (Or.inl rfl) hroom
      rw [hstep] at hok2
      have hqueue2 : ∀ x ∈ s.queue ++ [48 - 48], x = 0 ∨ x = 1 := by
        intro x hx
        rcases List.mem_append.mp hx with hx | hx
        · exact hqueue x hx
        · left; simpa using hx
      obtain ⟨applied, h1, h2, h3, h4⟩ := ih _ hqueue2 hrest hok2
      refine ⟨applied, ?_, ?_, ?_, ?_⟩
      · simp only [run, hstep, receivedBytes]
        simp only at h1
        rw [← h1]
        simp
      · simpa [run, hstep] using h2
      · simpa [run, hstep] using h3
      · simpa [run, hstep] using h4
    · -- the byte 49 is received
      obtain ⟨hput, hok2⟩ := hok
      have hroom := osMessageQueuePut_ok_room _ _ (hput rfl (Or.inr rfl))
      have hstep : step (.receive .HAL_OK 49) s = _ :=
        StartCommunicationTask_command_ok s 49 (Or.inr rfl) hroom
      rw [hstep] at hok2
      have hqueue2 : ∀ x ∈ s.queue ++ [49 - 48], x = 0 ∨ x = 1 := by
        intro x hx
        rcases List.mem_append.mp hx with hx | hx
        · exact hqueue x hx
        · right; simpa using hx
      obtain ⟨applied, h1, h2, h3, h4⟩ := ih _ hqueue2 hrest hok2
      refine ⟨applied, ?_, ?_, ?_, ?_⟩
      · simp only [run, hstep, receivedBytes]
        simp only at h1
        rw [← h1]
        simp
      · simpa [run, hstep] using h2
      · simpa [run, hstep] using h3
      · simpa [run, hstep] using h4

/-! ## Receiving everything, then emptying the queue, as one schedule -/

theorem ApplyDeviceCommand_queue (c : Nat) (s : State) :
    (ApplyDeviceCommand c s).queue = s.queue := by
  match c with
  | 0 => rfl
  | 1 => rfl
  | _ + 2 => rfl

theorem StartControlTask_queue (s : State) : (StartControlTask s).queue = s.queue.tail := by
  cases hq : s.queue with
  | nil => rw [StartControlTask_nil s hq, hq]; rfl
  | cons c rest =>
    simp only [StartControlTask, osMessageQueueGet, hq]
    rw [(SendStateOverUart_frame _).2.2.1, ApplyDeviceCommand_queue]
    rfl

theorem iterate_StartControlTask_queue (n : Nat) (s : State) (h : s.queue.length ≤ n) :
    (StartControlTask^[n] s).queue = [] := by
  induction n generalizing s with
  | zero => exact List.length_eq_zero.mp (Nat.le_zero.mp h)
  | succ n ih =>
    rw [Function.iterate_succ_apply]
    apply ih
    rw [StartControlTask_queue, List.length_tail]
    omega

/-- The control task does empty the queue. -/
theorem drain_queue (s : State) : (drain s).queue = [] :=
  iterate_StartControlTask_queue _ s (Nat.le_refl _)

theorem run_append (es fs : List Event) (s : State) :
    run (es ++ fs) s = run fs (run es s) := by
  induction es generalizing s with
  | nil => rfl
  | cons e rest ih =>
    rw [List.cons_append]
    exact ih (step e s)

theorem receiveAll_eq_run (bs : List Nat) (s : State) :
    receiveAll bs s = run (bs.map (Event.receive .HAL_OK)) s := by
  induction bs generalizing s with
  | nil => rfl
  | cons b rest ih => simp only [receiveAll, List.map_cons, run, step, ih]

theorem iterate_StartControlTask_eq_run (n : Nat) (s : State) :
    StartControlTask^[n] s = run (List.replicate n Event.control) s := by
  induction n generalizing s with
  | zero => rfl
  | succ n ih => rw [Function.iterate_succ_apply, List.replicate_succ, ih]; rfl

theorem receivedBytes_receives_then_controls (bs : List Nat) (n : Nat) :
    receivedBytes (bs.map (Event.receive .HAL_OK) ++ List.replicate n Event.control) = bs := by
  induction bs with
  | nil =>
    induction n with
    | zero => rfl
    | succ n ih => rw [List.replicate_succ]; simpa [receivedBytes] using ih
  | cons b rest ih => simpa [receivedBytes] using ih

theorem commandsOnly_receives_then_controls (bs : List Nat) (n : Nat)
    (hb : ∀ b ∈ bs, b = 48 ∨ b = 49) :
    commandsOnly (bs.map (Event.receive .HAL_OK) ++ List.replicate n Event.control) := by
  intro e he
  rcases List.mem_append.mp he with he | he
  · obtain ⟨b, hbm, rfl⟩ := List.mem_map.mp he
    rcases hb b hbm with rfl | rfl
    · exact Or.inr (Or.inl rfl)
    · exact Or.inr (Or.inr rfl)
  · exact Or.inl (List.eq_of_mem_replicate he)

theorem noEnqueueFails_controls (n : Nat) (s : State) :
    noEnqueueFails (List.replicate n Event.control) s := by
  induction n generalizing s with
  | zero => exact trivial
  | succ n ih => rw [List.replicate_succ]; exact ih _

theorem noEnqueueFails_receives_then_controls (bs : List Nat) (n : Nat) (s : State)
    (hb : ∀ b ∈ bs, b = 48 ∨ b = 49)
    (hlen : s.queue.length + bs.length ≤ COMMAND_QUEUE_LENGTH) :
    noEnqueueFails (bs.map (Event.receive .HAL_OK) ++ List.replicate n Event.control) s := by
  induction bs generalizing s with
  | nil => exact noEnqueueFails_controls n s
  | cons b rest ih =>
    have hroom : s.queue.length < COMMAND_QUEUE_LENGTH := by
      simp only [List.length_cons] at hlen
      omega
    have hstep : step (.receive .HAL_OK b) s = _ :=
      StartCommunicationTask_command_ok s b (hb b (List.mem_cons_self _ _)) hroom
    refine ⟨fun _ _ => by simp [osMessageQueuePut, hroom], ?_⟩
    rw [hstep]
    apply ih _ (fun x hx => hb x (List.mem_cons_of_mem _ hx))
    simp only [List.length_append, List.length_cons, List.length_nil] at hlen ⊢
    omega

/-- The communication task receives up to 16 command bytes into an empty queue and
the control task then empties it: the commands are applied in the order
received. -/
theorem drain_receiveAll_fifo (s : State) (bs : List Nat) (hempty : s.queue = [])
    (hb : ∀ b ∈ bs, b = 48 ∨ b = 49) (hlen : bs.length ≤ COMMAND_QUEUE_LENGTH) :
    (drain (receiveAll bs s)).queue = [] ∧
      (drain (receiveAll bs s)).calls = s.calls ++ appliedTrace (bs.map (fun b => b - 48)) ∧
      (drain (receiveAll bs s)).deviceState =
        (bs.map (fun b => b - 48)).getLast?.getD s.deviceState ∧
      (drain (receiveAll bs s)).pin = (bs.map (fun b => b - 48)).getLast?.getD s.pin := by
  have hrun : drain (receiveAll bs s) =
      run (bs.map (Event.receive .HAL_OK) ++
        List.replicate (receiveAll bs s).queue.length Event.control) s := by
    rw [run_append, ← receiveAll_eq_run, ← iterate_StartControlTask_eq_run]
    rfl
  have hq := drain_queue (receiveAll bs s)
  obtain ⟨applied, h1, h2, h3, h4⟩ :=
    run_fifo _ s (by rw [hempty]; intro c hc; exact absurd hc (List.not_mem_nil c))
      (commandsOnly_receives_then_controls bs (receiveAll bs s).queue.length hb)
      (noEnqueueFails_receives_then_controls bs (receiveAll bs s).queue.length s hb
        (by rw [hempty]; simpa using hlen))
  rw [← hrun] at h1 h2 h3 h4
  rw [receivedBytes_receives_then_controls, hempty, hq, List.nil_append, List.append_nil] at h1
  subst h1
  exact ⟨hq, h2, h3, h4⟩

/-- C1: for every starting state with an empty queue and every schedule of the two
tasks in which every receive succeeds with a byte in {`0`, `1`}, at least one
byte is received and no insertion into the queue fails: once the queue is empty
again at the end of the schedule, the control task has applied the received
commands in the order received (the trace has grown by the pin write and the
report of each, in that order), and `deviceState` and the pin level equal the
last received byte minus `0`. In particular this is so when up to 16 such bytes
are all received first and the control task then empties the queue, which it
does. -/
theorem commands_applied_in_order :
    (∀ (s : State) (es : List Event),
        s.queue = [] → commandsOnly es → ∀ hne : receivedBytes es ≠ [],
        noEnqueueFails es s → (run es s).queue = [] →
        (run es s).calls =
            s.calls ++ appliedTrace ((receivedBytes es).map (fun b => b - 48)) ∧
          (run es s).deviceState = (receivedBytes es).getLast hne - 48 ∧
          (run es s).pin = (receivedBytes es).getLast hne - 48) ∧
      (∀ (s : State) (bs : List Nat),
        s.queue = [] → (∀ b ∈ bs, b = 48 ∨ b = 49) → ∀ hne : bs ≠ [],
        bs.length ≤ COMMAND_QUEUE_LENGTH →
        (drain (receiveAll bs s)).queue = [] ∧
          (drain (receiveAll bs s)).calls =
            s.calls ++ appliedTrace (bs.map (fun b => b - 48)) ∧
          (drain (receiveAll bs s)).deviceState = bs.getLast hne - 48 ∧
          (drain (receiveAll bs s)).pin = bs.getLast hne - 48) := by
  constructor
  · intro s es hempty hcmd hne hok hdrained
    obtain ⟨applied, h1, h2, h3, h4⟩ :=
      run_fifo es s (by rw [hempty]; intro c hc; exact absurd hc (List.not_mem_nil c)) hcmd hok
    rw [hempty, hdrained, List.nil_append, List.append_nil] at h1
    subst h1
    have hlast : ((receivedBytes es).map (fun b => b - 48)).getLast? =
        some ((receivedBytes es).getLast hne - 48) := by
      rw [List.getLast?_map, List.getLast?_eq_getLast _ hne]
      rfl
    rw [hlast] at h3 h4
    exact ⟨h2, h3, h4⟩
  · intro s bs hempty hb hne hlen
    obtain ⟨h1, h2, h3, h4⟩ := drain_receiveAll_fifo s bs hempty hb hlen
    have hlast : (bs.map (fun b => b - 48)).getLast? = some (bs.getLast hne - 48) := by
      rw [List.getLast?_map, List.getLast?_eq_getLast _ hne]
      rfl
    rw [hlast] at h3 h4
    exact ⟨h1, h2, h3, h4⟩

theorem commands_applied_in_order_witness :
    (run [.receive .HAL_OK 49, .receive .HAL_OK 48, .control, .receive .HAL_OK 49,
          .control, .control] initialState).calls =
        initialState.calls ++ appliedTrace [1, 0, 1] ∧
      (run [.receive .HAL_OK 49, .receive .HAL_OK 48, .control, .receive .HAL_OK 49,
          .control, .control] initialState).deviceState = 49 - 48 ∧
      (run [.receive .HAL_OK 49, .receive .HAL_OK 48, .control, .receive .HAL_OK 49,
          .control, .control] initialState).pin = 49 - 48 :=
  commands_applied_in_order.1 initialState
    [.receive .HAL_OK 49, .receive .HAL_OK 48, .control, .receive .HAL_OK 49,
      .control, .control]
    rfl (by decide) (by decide) (by decide) rfl

end Firmware
